import Mathlib

/-!
Shallow embedding of `nucypher/utilities/concurrency.py`:
the `Future` single-assignment cell, the `WorkerPool` dispatcher
(its result-collector step, timeout watchdog, producer loop and the
caller-facing `block_until_target_successes` / `join` / snapshot accessors),
and the `BatchValueFactory` reference value factory.

Python `dict`s are modelled as association lists with distinct keys and an
overwrite-on-existing-key insert (`dinsert`); `len(dict)` is the list length,
which under the no-duplicate-keys invariant equals the number of distinct keys.
Machine integers do not overflow here (Python ints), so `Nat`/`Int` are exact.
Blocking reads are modelled by `Option`-valued functions: `none` means the
call would block (no value published yet).
-/

namespace Concurrency

variable {K V R E T A : Type}

/-! ### Dictionaries as association lists -/

/-- Apython-dict insert: overwrite the entry for `k` if present, else append. -/
def dinsert [DecidableEq K] : List (K × V) → K → V → List (K × V)
  | [], k, v => [(k, v)]
  | (k', v') :: t, k, v =>
    if k' = k then (k, v) :: t else (k', v') :: dinsert t k v

/-- The keys of a dictionary, in storage order. -/
def dkeys : List (K × V) → List K
  | [] => []
  | (k, _) :: t => k :: dkeys t

/-- Python-dict lookup. -/
def dlookup [DecidableEq K] : List (K × V) → K → Option V
  | [], _ => none
  | (k', v') :: t, k => if k' = k then some v' else dlookup t k

theorem dkeys_dinsert_of_mem [DecidableEq K] (m : List (K × V)) (k : K) (v : V)
    (h : k ∈ dkeys m) : dkeys (dinsert m k v) = dkeys m := by
  induction m with
  | nil => simp [dkeys] at h
  | cons hd t ih =>
    obtain ⟨k', v'⟩ := hd
    by_cases hk : k' = k
    · simp [dinsert, dkeys, hk]
    · have hmem : k ∈ dkeys t := by
        rcases List.mem_cons.mp h with h1 | h1
        · exact absurd h1.symm hk
        · exact h1
      simp [dinsert, dkeys, hk]
      exact ih hmem

theorem dkeys_dinsert_of_not_mem [DecidableEq K] (m : List (K × V)) (k : K) (v : V)
    (h : k ∉ dkeys m) : dkeys (dinsert m k v) = dkeys m ++ [k] := by
  induction m with
  | nil => simp [dinsert, dkeys]
  | cons hd t ih =>
    obtain ⟨k', v'⟩ := hd
    by_cases hk : k' = k
    · exact absurd (by simp [dkeys, hk]) h
    · have ht : k ∉ dkeys t := fun hm => h (List.mem_cons_of_mem _ hm)
      simp [dinsert, dkeys, hk]
      exact ih ht

theorem dlookup_dinsert_self [DecidableEq K] (m : List (K × V)) (k : K) (v : V) :
    dlookup (dinsert m k v) k = some v := by
  induction m with
  | nil => simp [dinsert, dlookup]
  | cons hd t ih =>
    obtain ⟨k', v'⟩ := hd
    by_cases hk : k' = k
    · simp [dinsert, dlookup, hk]
    · simp [dinsert, dlookup, hk, ih]

theorem dkeys_length (m : List (K × V)) : (dkeys m).length = m.length := by
  induction m with
  | nil => rfl
  | cons hd t ih => obtain ⟨k, v⟩ := hd; simp [dkeys, ih]

theorem length_dinsert_of_mem [DecidableEq K] (m : List (K × V)) (k : K) (v : V)
    (h : k ∈ dkeys m) : (dinsert m k v).length = m.length := by
  have h1 : (dkeys (dinsert m k v)).length = (dkeys m).length := by
    rw [dkeys_dinsert_of_mem m k v h]
  rwa [dkeys_length, dkeys_length] at h1

theorem mem_dkeys_dinsert_self [DecidableEq K] (m : List (K × V)) (k : K) (v : V) :
    k ∈ dkeys (dinsert m k v) := by
  induction m with
  | nil => simp [dinsert, dkeys]
  | cons hd t ih =>
    obtain ⟨k', v'⟩ := hd
    by_cases hk : k' = k
    · simp [dinsert, dkeys, hk]
    · simp only [dinsert, dkeys, if_neg hk, List.mem_cons]
      exact Or.inr ih

theorem nodup_dkeys_dinsert [DecidableEq K] (m : List (K × V)) (k : K) (v : V)
    (h : (dkeys m).Nodup) : (dkeys (dinsert m k v)).Nodup := by
  by_cases hk : k ∈ dkeys m
  · rwa [dkeys_dinsert_of_mem m k v hk]
  · rw [dkeys_dinsert_of_not_mem m k v hk]
    simpa [List.nodup_append] using ⟨h, fun hm => hk hm⟩

/-! ### BatchValueFactory

Embeds `BatchValueFactory.__init__` (the constructor checks) and
`BatchValueFactory.__call__` (the batching logic).  After a successful
construction `required_successes` and `batch_size` are positive, so they are
stored as `Nat`; the constructor takes Python-int (`Int`) arguments so the
`<= 0` checks are meaningful. -/

structure BatchValueFactory (A : Type) where
  values : List A
  required_successes : Nat
  batch_size : Nat
  batch_start_index : Nat

/-- `BatchValueFactory.__init__`: validation checks in source order, then the
field assignments (`_batch_start_index = 0`, default `batch_size =
required_successes`). -/
def BatchValueFactory.mk? (values : List A) (required_successes : Int)
    (batch_size : Option Int) : Except String (BatchValueFactory A) :=
  if values.isEmpty then .error "No available values provided"
  else if required_successes ≤ 0 then .error "Invalid number of successes required"
  else if (values.length : Int) < required_successes then
    .error "Available values less than required successes"
  else
    match batch_size with
    | some b =>
      if b ≤ 0 then .error "Invalid batch size specified"
      else .ok ⟨values, required_successes.toNat, b.toNat, 0⟩
    | none => .ok ⟨values, required_successes.toNat, required_successes.toNat, 0⟩

/-- `BatchValueFactory.__call__`: returns the next batch (`none` models
Python's `None`) and the updated factory state.  Python's slice
`values[i:e]` is `(values.drop i).take (e - i)`. -/
def BatchValueFactory.call (f : BatchValueFactory A) (successes : Nat) :
    Option (List A) × BatchValueFactory A :=
  if f.required_successes ≤ successes then (none, f)
  else if f.batch_start_index = f.values.length then (none, f)
  else
    let batch_end_index := f.batch_start_index + f.batch_size
    if batch_end_index ≤ f.values.length then
      (some ((f.values.drop f.batch_start_index).take f.batch_size),
       { f with batch_start_index := batch_end_index })
    else
      (some (f.values.drop f.batch_start_index),
       { f with batch_start_index := f.values.length })

/-- Runs a sequence of calls against a factory, collecting each call's
returned batch in order. -/
def BatchValueFactory.run (f : BatchValueFactory A) :
    List Nat → List (Option (List A)) × BatchValueFactory A
  | [] => ([], f)
  | a :: rest =>
    let step := f.call a
    let tail := step.2.run rest
    (step.1 :: tail.1, tail.2)

/-! ### Future

`Future` holds `Option (FutureResult V E)`: `none` while unset.  `_set`
(under the lock) checks `is_set` and stores the value only on the first
write; `get` waits for the event (modelled by the cell being `some`) and
then returns the stored value or re-raises the stored exception. -/

structure FutureResult (V E : Type) where
  value : Option V
  exc_info : Option E

/-- `Future._set`: first write wins, later writes are ignored. -/
def fset (s : Option A) (v : A) : Option A :=
  if s.isSome then s else some v

/-- `Future.set(value)`. -/
def Future.set (s : Option (FutureResult V E)) (v : V) : Option (FutureResult V E) :=
  fset s ⟨some v, none⟩

/-- `Future.set_exception()` with the current exception `e`. -/
def Future.set_exception (s : Option (FutureResult V E)) (e : E) :
    Option (FutureResult V E) :=
  fset s ⟨none, some e⟩

/-- `Future.is_set()`. -/
def Future.is_set (s : Option (FutureResult V E)) : Bool := s.isSome

/-- The body of `Future.get` after the event fired: re-raise the captured
exception if there is one, otherwise return the stored value. -/
def FutureResult.getResult (r : FutureResult V E) : Except E (Option V) :=
  match r.exc_info with
  | some e => .error e
  | none => .ok r.value

/-- `Future.get()`: blocks while unset (`none`), then returns or raises. -/
def Future.get (s : Option (FutureResult V E)) : Option (Except E (Option V)) :=
  s.map FutureResult.getResult

/-- One pending write to a `Future` (which method raced to it). -/
inductive FutureWrite (V E : Type)
  | set (v : V)
  | set_exception (e : E)

/-- The `FutureResult` a single write would store. -/
def FutureWrite.result : FutureWrite V E → FutureResult V E
  | .set v => ⟨some v, none⟩
  | .set_exception e => ⟨none, some e⟩

/-- Applies a sequence of racing writes to a `Future` cell in order. -/
def Future.applyWrites (s : Option (FutureResult V E)) :
    List (FutureWrite V E) → Option (FutureResult V E)
  | [] => s
  | .set v :: ws => Future.applyWrites (Future.set s v) ws
  | .set_exception e :: ws => Future.applyWrites (Future.set_exception s e) ws

theorem applyWrites_of_isSome (s : Option (FutureResult V E))
    (ws : List (FutureWrite V E)) (h : s.isSome) : Future.applyWrites s ws = s := by
  induction ws with
  | nil => rfl
  | cons w ws ih =>
    cases w with
    | set v =>
      simp [Future.applyWrites, Future.set, fset, h]
      exact ih
    | set_exception e =>
      simp [Future.applyWrites, Future.set_exception, fset, h]
      exact ih

/-! ### WorkerPool: outcome, termination signal, caller-facing operations

The `_target_value` future is set with one of: the successes-dict snapshot
(`reached_target`), the `TIMEOUT_TRIGGERED` sentinel, or the
`PRODUCER_STOPPED` sentinel. -/

inductive Outcome (V R : Type)
  | reached_target (successes : List (V × R))
  | timeout_triggered
  | producer_stopped

/-- The raised errors of `block_until_target_successes` / `join`:
`WorkerPool.TimedOut`, `WorkerPool.OutOfValues`, or a re-raised producer
defect.  `T` is the (opaque, carried-through) type of the timeout value. -/
inductive PoolError (V E T : Type)
  | timedOut (timeout : T) (failures : List (V × E))
  | outOfValues (failures : List (V × E))
  | producerDefect (e : E)

/-- The state of a `WorkerPool` as seen by a caller of
`block_until_target_successes`: the configured timeout, the contents of the
`_producer_error` and `_target_value` futures, and the `_failures` dict. -/
structure PoolView (V R E T : Type) where
  timeout : T
  producer_error : Option E
  target_value : Option (Outcome V R)
  failures : List (V × E)

/-- `WorkerPool._check_for_producer_error`: re-raise the producer defect if
the `_producer_error` future is set. -/
def check_for_producer_error (producer_error : Option E) : Except E Unit :=
  match producer_error with
  | some e => .error e
  | none => .ok ()

/-- `WorkerPool.join` as its caller observes it: after all service threads
are joined and the thread pool stopped, re-raises a captured producer
defect. -/
def WorkerPool.join (p : PoolView V R E T) : Except E Unit :=
  check_for_producer_error p.producer_error

/-- `WorkerPool.block_until_target_successes`: checks for a producer defect,
then blocks on `_target_value.get()` (`none` = still blocked) and maps the
published outcome to the returned successes dict or a raised error;
`get_failures()` snapshots are content-equal to the `_failures` dict. -/
def block_until_target_successes (p : PoolView V R E T) :
    Option (Except (PoolError V E T) (List (V × R))) :=
  match check_for_producer_error p.producer_error with
  | .error e => some (.error (.producerDefect e))
  | .ok () =>
    match p.target_value with
    | none => none
    | some (.reached_target m) => some (.ok m)
    | some .timeout_triggered => some (.error (.timedOut p.timeout p.failures))
    | some .producer_stopped => some (.error (.outOfValues p.failures))

/-- Which of the caller-visible outcomes a result of
`block_until_target_successes` is. -/
inductive BlockOutcomeKind
  | gotSuccesses
  | timedOut
  | outOfValues
  | producerDefect
deriving DecidableEq

/-- Classifies a `block_until_target_successes` result. -/
def blockKind : Except (PoolError V E T) (List (V × R)) → BlockOutcomeKind
  | .ok _ => .gotSuccesses
  | .error (.timedOut _ _) => .timedOut
  | .error (.outOfValues _) => .outOfValues
  | .error (.producerDefect _) => .producerDefect

/-- `WorkerPool._bail_on_timeout`: if the cancellation event was not set
within the timeout, publish `TIMEOUT_TRIGGERED` (first write wins), then set
the cancellation event.  Returns the updated `_target_value` cell and the
cancellation flag. -/
def bail_on_timeout (cancelled_within_timeout : Bool)
    (target_value : Option (Outcome V R)) : Option (Outcome V R) × Bool :=
  if ¬ cancelled_within_timeout then
    (fset target_value Outcome.timeout_triggered, true)
  else
    (target_value, true)

/-! ### WorkerPool: result-collector step (`_process_results`)

One iteration of the collector loop for a worker result taken off the
`_result_queue` (a `Success`, `Failure`, or `Cancelled` envelope; the
`PRODUCER_STOPPED` sentinel is handled by the surrounding loop control). -/

/-- A worker result envelope put on the `_result_queue` by
`_worker_wrapper`. -/
inductive WorkResult (V R E : Type)
  | success (value : V) (result : R)
  | failure (value : V) (exc_info : E)
  | cancelled

/-- The collector-visible state of a `WorkerPool`. -/
structure CollectorState (V R E : Type) where
  successes : List (V × R)
  failures : List (V × E)
  finished_tasks : Nat
  target_value : Option (Outcome V R)
  success_event_reached : Bool

/-- One non-sentinel iteration of `_process_results`: bump
`_finished_tasks`, record the result in the successes/failures dict, and on
a `Success` publish the reached-target outcome (with a `get_successes()`
snapshot) the first time `len(_successes)` equals the target. -/
def process_one_result [DecidableEq V] (target_successes : Nat)
    (s : CollectorState V R E) : WorkResult V R E → CollectorState V R E
  | .success v r =>
    let successes := dinsert s.successes v r
    let len_successes := successes.length
    let s1 := { s with finished_tasks := s.finished_tasks + 1, successes := successes }
    if ¬ s1.success_event_reached ∧ len_successes = target_successes then
      { s1 with
          success_event_reached := true
          target_value := fset s1.target_value (Outcome.reached_target successes) }
    else s1
  | .failure v e =>
    { s with finished_tasks := s.finished_tasks + 1, failures := dinsert s.failures v e }
  | .cancelled => { s with finished_tasks := s.finished_tasks + 1 }

/-! ### WorkerPool: producer loop (`_produce_values`)

The loop asks the value factory for a batch; any of those calls may raise.
The factory behaviour at each iteration, the successes count it observes and
whether the cancellation event fires during the stagger sleep are supplied
as oracles, because they depend on the concurrent collector/worker
activity. -/

/-- What the `self._value_factory(len_successes)` call does at one
iteration. -/
inductive FactoryResp (V E : Type)
  | batch (b : Option (List V))
  | raise (e : E)
  | raiseCancelled

/-- How the producer loop exited: the empty-batch `break`, the
`except Cancelled` branch, or the `except BaseException` branch with the
unexpected exception. -/
inductive ProducerExit (E : Type)
  | normal
  | cancelled
  | defect (e : E)

/-- The producer-visible state of a `WorkerPool`. -/
structure ProducerState (V E : Type) where
  started_tasks : Nat
  cancel_event : Bool
  producer_error : Option E
  submitted : List V
  queued_producer_stopped : Bool

/-- The `while True` body of `_produce_values`, fuel-bounded (`none` means
the fuel ran out before the loop exited).  `factory i` is the factory
response and `lens i` the `len(self._successes)` read at iteration `i`;
`cancel_during_sleep i` tells whether the cancellation event fired during
iteration `i`'s stagger sleep. -/
def produce_values_loop (factory : Nat → FactoryResp V E) (lens : Nat → Nat)
    (cancel_during_sleep : Nat → Bool) :
    Nat → Nat → ProducerState V E → Option (ProducerExit E × ProducerState V E)
  | 0, _, _ => none
  | fuel + 1, i, s =>
    match factory (lens i) with
    | .raiseCancelled => some (.cancelled, s)
    | .raise e =>
      some (.defect e,
        { s with producer_error := fset s.producer_error e, cancel_event := true })
    | .batch b =>
      match b with
      | none => some (.normal, s)
      | some [] => some (.normal, s)
      | some batch =>
        let s1 := { s with
          started_tasks := s.started_tasks + batch.length
          submitted := s.submitted ++ batch }
        if s1.cancel_event ∨ cancel_during_sleep i then
          some (.cancelled, { s1 with cancel_event := true })
        else
          produce_values_loop factory lens cancel_during_sleep fuel (i + 1) s1

/-- `_produce_values`: run the loop, then unconditionally put the
`PRODUCER_STOPPED` sentinel on the result queue. -/
def produce_values (factory : Nat → FactoryResp V E) (lens : Nat → Nat)
    (cancel_during_sleep : Nat → Bool) (fuel : Nat) (s : ProducerState V E) :
    Option (ProducerExit E × ProducerState V E) :=
  match produce_values_loop factory lens cancel_during_sleep fuel 0 s with
  | none => none
  | some (r, s1) => some (r, { s1 with queued_producer_stopped := true })

/-! ### Snapshot accessors (`get_successes` / `get_failures`)

Python's `dict(self._failures)` allocates a fresh dict whose contents are
copied; to state the no-aliasing frame property we model a heap of dicts
addressed by allocation order. -/

/-- A heap of Python dicts; the address of a dict is its index. -/
structure DictHeap (K V : Type) where
  cells : List (List (K × V))

/-- Dereference an address. -/
def DictHeap.read (h : DictHeap K V) (a : Nat) : List (K × V) :=
  h.cells.getD a []

/-- Mutate the dict at an address in place. -/
def DictHeap.write (h : DictHeap K V) (a : Nat) (d : List (K × V)) : DictHeap K V :=
  ⟨h.cells.set a d⟩

/-- Allocate a fresh dict, returning its address. -/
def DictHeap.alloc (h : DictHeap K V) (d : List (K × V)) : DictHeap K V × Nat :=
  (⟨h.cells ++ [d]⟩, h.cells.length)

/-- `WorkerPool.get_failures` (and, identically, `get_successes`): under
`_results_lock`, `dict(internal)` — allocate a fresh dict with the internal
dict's current contents and hand its address to the caller. -/
def get_failures_op (h : DictHeap K V) (internal_addr : Nat) : DictHeap K V × Nat :=
  h.alloc (h.read internal_addr)

/-! ### Lemmas about `BatchValueFactory.call` -/

theorem call_none_of_done (f : BatchValueFactory A) (a : Nat)
    (h : f.required_successes ≤ a) : f.call a = (none, f) := by
  unfold BatchValueFactory.call
  rw [if_pos h]

theorem call_none_of_exhausted (f : BatchValueFactory A) (a : Nat)
    (h : f.batch_start_index = f.values.length) : f.call a = (none, f) := by
  unfold BatchValueFactory.call
  by_cases h1 : f.required_successes ≤ a
  · rw [if_pos h1]
  · rw [if_neg h1, if_pos h]

theorem call_none_iff (f : BatchValueFactory A) (a : Nat) :
    (f.call a).1 = none ↔
      (f.required_successes ≤ a ∨ f.batch_start_index = f.values.length) := by
  constructor
  · intro h
    by_contra hc
    push_neg at hc
    obtain ⟨h1, h2⟩ := hc
    unfold BatchValueFactory.call at h
    rw [if_neg (by omega), if_neg h2] at h
    dsimp only at h
    split at h <;> simp at h
  · intro h
    rcases h with h | h
    · rw [call_none_of_done f a h]
    · rw [call_none_of_exhausted f a h]

theorem call_batch_spec (f : BatchValueFactory A) (a : Nat)
    (hinv : f.batch_start_index ≤ f.values.length)
    (h1 : a < f.required_successes) (h2 : f.batch_start_index < f.values.length) :
    f.call a =
      (some ((f.values.drop f.batch_start_index).take f.batch_size),
       { f with batch_start_index := min (f.batch_start_index + f.batch_size) f.values.length }) := by
  unfold BatchValueFactory.call
  rw [if_neg (by omega), if_neg (by omega)]
  dsimp only
  by_cases h3 : f.batch_start_index + f.batch_size ≤ f.values.length
  · rw [if_pos h3]
    have : min (f.batch_start_index + f.batch_size) f.values.length =
        f.batch_start_index + f.batch_size := by omega
    rw [this]
  · rw [if_neg h3]
    have hmin : min (f.batch_start_index + f.batch_size) f.values.length =
        f.values.length := by omega
    have htake : (f.values.drop f.batch_start_index).take f.batch_size =
        f.values.drop f.batch_start_index := by
      apply List.take_of_length_le
      rw [List.length_drop]
      omega
    rw [hmin, htake]

theorem call_values_eq (f : BatchValueFactory A) (a : Nat) :
    (f.call a).2.values = f.values ∧
    (f.call a).2.required_successes = f.required_successes ∧
    (f.call a).2.batch_size = f.batch_size := by
  unfold BatchValueFactory.call
  split
  · exact ⟨rfl, rfl, rfl⟩
  · split
    · exact ⟨rfl, rfl, rfl⟩
    · dsimp only
      split <;> exact ⟨rfl, rfl, rfl⟩

theorem call_cursor_mono (f : BatchValueFactory A) (a : Nat)
    (hinv : f.batch_start_index ≤ f.values.length) :
    f.batch_start_index ≤ (f.call a).2.batch_start_index ∧
    (f.call a).2.batch_start_index ≤ f.values.length := by
  unfold BatchValueFactory.call
  split
  · exact ⟨le_refl _, hinv⟩
  · split
    · exact ⟨le_refl _, hinv⟩
    · dsimp only
      split
      · next h3 => exact ⟨Nat.le_add_right _ _, h3⟩
      · exact ⟨hinv, le_refl _⟩

theorem call_some_batch (f : BatchValueFactory A) (a : Nat) (l : List A)
    (hinv : f.batch_start_index ≤ f.values.length)
    (h : (f.call a).1 = some l) :
    l = (f.values.drop f.batch_start_index).take
          ((f.call a).2.batch_start_index - f.batch_start_index) ∧
    (f.call a).2.batch_start_index = f.batch_start_index + l.length := by
  have h1 : ¬ f.required_successes ≤ a := by
    intro hc
    rw [call_none_of_done f a hc] at h
    simp at h
  have h2 : f.batch_start_index ≠ f.values.length := by
    intro hc
    rw [call_none_of_exhausted f a hc] at h
    simp at h
  have hlt : f.batch_start_index < f.values.length := by omega
  rw [call_batch_spec f a hinv (by omega) hlt] at h ⊢
  dsimp only at h ⊢
  simp only [Option.some.injEq] at h
  subst h
  refine ⟨?_, ?_⟩
  · rw [List.take_eq_take, List.length_drop]
    omega
  · rw [List.length_take, List.length_drop]
    omega

/-- C4: `BatchValueFactory` construction raises `ValueError` if and only if
the candidate list is empty, or `required_successes <= 0`, or the candidate
list has fewer elements than `required_successes`, or an explicitly given
`batch_size` is `<= 0`; all other inputs construct successfully. -/
theorem batch_value_factory_mk_error_iff (values : List A) (required_successes : Int)
    (batch_size : Option Int) :
    ((∃ msg, BatchValueFactory.mk? values required_successes batch_size =
        Except.error msg) ↔
      (values = [] ∨ required_successes ≤ 0 ∨
        (values.length : Int) < required_successes ∨
        ∃ b, batch_size = some b ∧ b ≤ 0)) ∧
    ((∃ f, BatchValueFactory.mk? values required_successes batch_size =
        Except.ok f) ↔
      ¬ (values = [] ∨ required_successes ≤ 0 ∨
        (values.length : Int) < required_successes ∨
        ∃ b, batch_size = some b ∧ b ≤ 0)) := by
  unfold BatchValueFactory.mk?
  by_cases h1 : values.isEmpty
  · have hv : values = [] := List.isEmpty_iff.mp h1
    rw [if_pos h1]
    simp [hv]
  · have hv : values ≠ [] := fun h => h1 (List.isEmpty_iff.mpr h)
    rw [if_neg h1]
    by_cases h2 : required_successes ≤ 0
    · rw [if_pos h2]
      simp [hv, h2]
    · rw [if_neg h2]
      by_cases h3 : (values.length : Int) < required_successes
      · rw [if_pos h3]
        simp [hv, h2, h3]
      · rw [if_neg h3]
        cases batch_size with
        | none => simp [hv, h2, h3]
        | some b =>
          by_cases h4 : b ≤ 0
          · simp only [if_pos h4]
            simp [hv, h2, h3, h4]
          · simp only [if_neg h4]
            simp [hv, h2, h3, h4]

/-- C3: for a validly constructed `BatchValueFactory` (cursor within bounds,
positive batch size — both established by construction and preserved by
calls), each call returns `None` when `successes >= required_successes`,
`None` when the cursor has consumed the whole list, and otherwise the next
slice of up to `batch_size` remaining candidates (shorter when fewer
remain), advancing the cursor by the slice length; and construction without
an explicit batch size sets `batch_size = required_successes`. -/
theorem batch_value_factory_call_spec (f : BatchValueFactory A) (a : Nat)
    (hinv : f.batch_start_index ≤ f.values.length) (hbs : 1 ≤ f.batch_size) :
    (f.required_successes ≤ a → f.call a = (none, f)) ∧
    (a < f.required_successes → f.batch_start_index = f.values.length →
      f.call a = (none, f)) ∧
    (a < f.required_successes → f.batch_start_index < f.values.length →
      ∃ b, f.call a =
          (some b, { f with batch_start_index := f.batch_start_index + b.length }) ∧
        b = (f.values.drop f.batch_start_index).take f.batch_size ∧
        b.length = min f.batch_size (f.values.length - f.batch_start_index) ∧
        b ≠ []) ∧
    (∀ (vs : List A) (rs : Int) (g : BatchValueFactory A),
      BatchValueFactory.mk? vs rs none = Except.ok g →
        g.batch_size = g.required_successes) := by
  refine ⟨fun h => call_none_of_done f a h,
          fun _ h => call_none_of_exhausted f a h, ?_, ?_⟩
  · intro h1 h2
    refine ⟨(f.values.drop f.batch_start_index).take f.batch_size, ?_, rfl, ?_, ?_⟩
    · rw [call_batch_spec f a hinv h1 h2]
      have : f.batch_start_index +
          ((f.values.drop f.batch_start_index).take f.batch_size).length =
          min (f.batch_start_index + f.batch_size) f.values.length := by
        rw [List.length_take, List.length_drop]
        omega
      rw [this]
    · rw [List.length_take, List.length_drop]
    · intro hc
      have := congrArg List.length hc
      rw [List.length_take, List.length_drop] at this
      simp at this
      omega
  · intro vs rs g hg
    unfold BatchValueFactory.mk? at hg
    by_cases e1 : vs.isEmpty
    · rw [if_pos e1] at hg; exact absurd hg (by simp)
    · rw [if_neg e1] at hg
      by_cases e2 : rs ≤ 0
      · rw [if_pos e2] at hg; exact absurd hg (by simp)
      · rw [if_neg e2] at hg
        by_cases e3 : (vs.length : Int) < rs
        · rw [if_pos e3] at hg; exact absurd hg (by simp)
        · rw [if_neg e3] at hg
          simp only [Except.ok.injEq] at hg
          rw [← hg]

/-- C3 witness: the factory `⟨[10, 20, 30, 40, 50], 3, 2, 2⟩` (candidates,
required successes 3, batch size 2, cursor 2) behaves as specified on each
branch, and default construction equates batch size with required
successes. -/
theorem batch_value_factory_call_spec_witness :
    (BatchValueFactory.mk [10, 20, 30, 40, 50] 3 2 2).call 1 =
      (some [30, 40], BatchValueFactory.mk [10, 20, 30, 40, 50] 3 2 4) ∧
    (BatchValueFactory.mk [10, 20, 30, 40, 50] 3 2 2).call 3 =
      (none, BatchValueFactory.mk [10, 20, 30, 40, 50] 3 2 2) := by
  have h := batch_value_factory_call_spec
    (BatchValueFactory.mk [10, 20, 30, 40, 50] 3 2 2) 1 (by decide) (by decide)
  have h3 := batch_value_factory_call_spec
    (BatchValueFactory.mk [10, 20, 30, 40, 50] 3 2 2) 3 (by decide) (by decide)
  obtain ⟨b, hb, hbe, _, _⟩ := h.2.2.1 (by decide) (by decide)
  constructor
  · rw [hb, hbe]
    rfl
  · exact h3.1 (by decide)

/-- C5 counterexample: for the validly constructed factory with candidates
`[1, 2]` and one required success, a call with `successes = 1` returns the
empty/absent batch, yet a later call with `successes = 0` returns the
non-empty batch `[1]` — so monotonic exhaustion fails for arbitrary
`successesSoFar` arguments. -/
theorem batch_value_factory_exhaustion_cex :
    BatchValueFactory.mk? [1, 2] 1 none =
      Except.ok (BatchValueFactory.mk [1, 2] 1 1 0) ∧
    ((BatchValueFactory.mk [1, 2] 1 1 0).call 1).1 = none ∧
    (((BatchValueFactory.mk [1, 2] 1 1 0).call 1).2.call 0).1 = some [1] := by
  refine ⟨rfl, rfl, rfl⟩

/-- C5 (amended): monotonic exhaustion holds for monotonically
nondecreasing `successesSoFar` arguments (which is how the producer loop
calls the factory: the distinct-success count never decreases).  Once a
call returns the empty/absent batch, every later call whose argument is at
least as large returns the empty/absent batch. -/
theorem batch_value_factory_monotone_exhaustion (f : BatchValueFactory A)
    (a : Nat) (args : List Nat) (hmono : ∀ b ∈ args, a ≤ b)
    (hnone : (f.call a).1 = none) :
    ∀ r ∈ ((f.call a).2.run args).1, r = none := by
  have hcond := (call_none_iff f a).mp hnone
  have hstate : (f.call a).2 = f := by
    rcases hcond with h | h
    · rw [call_none_of_done f a h]
    · rw [call_none_of_exhausted f a h]
  rw [hstate]
  clear hnone hstate
  induction args generalizing f with
  | nil => intro r hr; simp [BatchValueFactory.run] at hr
  | cons b rest ih =>
    intro r hr
    have hab : a ≤ b := hmono b (List.mem_cons_self b rest)
    have hbnone : f.call b = (none, f) := by
      rcases hcond with h | h
      · exact call_none_of_done f b (le_trans h hab)
      · exact call_none_of_exhausted f b h
    simp only [BatchValueFactory.run, hbnone] at hr
    rcases List.mem_cons.mp hr with h | h
    · exact h
    · exact ih f (fun c hc => hmono c (List.mem_cons_of_mem b hc)) hcond r h

/-- The factory of the C5-amended witness: candidates `[1, 2, 3]`, two
required successes, batch size 2, fresh cursor. -/
def exhaustionWitnessFactory : BatchValueFactory Nat :=
  BatchValueFactory.mk [1, 2, 3] 2 2 0

/-- C5-amended witness: with candidates `[1, 2, 3]` and two required
successes, after the call with `successes = 2` returns the empty batch, the
later calls with arguments `2, 3` both return the empty batch. -/
theorem batch_value_factory_monotone_exhaustion_witness :
    (((exhaustionWitnessFactory.call 2).2.run [2, 3]).1 :
      List (Option (List Nat))) = [none, none] := by
  have h := batch_value_factory_monotone_exhaustion exhaustionWitnessFactory
    2 [2, 3] (by decide) (by decide)
  obtain ⟨r1, r2, hr⟩ :
      ∃ r1 r2, ((exhaustionWitnessFactory.call 2).2.run [2, 3]).1 = [r1, r2] :=
    ⟨_, _, rfl⟩
  rw [hr] at h ⊢
  rw [h r1 (by simp), h r2 (by simp)]

theorem run_spec (args : List Nat) : ∀ (f : BatchValueFactory A),
    f.batch_start_index ≤ f.values.length →
    f.batch_start_index ≤ (f.run args).2.batch_start_index ∧
    (f.run args).2.batch_start_index ≤ f.values.length ∧
    (f.run args).2.values = f.values ∧
    ((f.run args).1.filterMap id).flatten =
      (f.values.drop f.batch_start_index).take
        ((f.run args).2.batch_start_index - f.batch_start_index) := by
  induction args with
  | nil =>
    intro f hinv
    refine ⟨le_refl _, hinv, rfl, ?_⟩
    simp [BatchValueFactory.run]
  | cons a rest ih =>
    intro f hinv
    have hv := (call_values_eq f a).1
    have hm := call_cursor_mono f a hinv
    have hinv1 : (f.call a).2.batch_start_index ≤ (f.call a).2.values.length := by
      rw [hv]; exact hm.2
    obtain ⟨ih1, ih2, ih3, ih4⟩ := ih (f.call a).2 hinv1
    rw [hv] at ih2 ih4
    have hrun : f.run (a :: rest) =
        ((f.call a).1 :: ((f.call a).2.run rest).1, ((f.call a).2.run rest).2) := rfl
    rw [hrun]
    dsimp only
    cases hb : (f.call a).1 with
    | none =>
      have hcall : f.call a = (none, f) := by
        rcases (call_none_iff f a).mp hb with h | h
        · exact call_none_of_done f a h
        · exact call_none_of_exhausted f a h
      have hf1 : (f.call a).2 = f := by rw [hcall]
      rw [hf1] at ih1 ih2 ih3 ih4 ⊢
      exact ⟨ih1, ih2, ih3, by simpa using ih4⟩
    | some l =>
      obtain ⟨hl, hadv⟩ := call_some_batch f a l hinv hb
      refine ⟨le_trans hm.1 ih1, ih2, ih3.trans hv, ?_⟩
      have hfm : List.filterMap id
          (some l :: ((f.call a).2.run rest).1) =
          l :: List.filterMap id (((f.call a).2.run rest).1) := by
        simp
      rw [hfm, List.flatten_cons, ih4, hl]
      have hx : ((f.call a).2.run rest).2.batch_start_index - f.batch_start_index =
          ((f.call a).2.batch_start_index - f.batch_start_index) +
          (((f.call a).2.run rest).2.batch_start_index -
            (f.call a).2.batch_start_index) := by
        omega
      rw [hx, List.take_add, List.drop_drop]
      have hy : f.batch_start_index +
          ((f.call a).2.batch_start_index - f.batch_start_index) =
          (f.call a).2.batch_start_index := by
        omega
      rw [hy]

/-- C8: across any sequence of calls the cursor never decreases and stays
within bounds, and the concatenation of all non-empty returned batches in
call order equals the slice of the candidate list between the initial and
final cursor — so from a fresh factory it is a prefix of the candidate
list, and no candidate position is issued twice. -/
theorem batch_value_factory_cursor_slice (f : BatchValueFactory A)
    (args : List Nat) (hinv : f.batch_start_index ≤ f.values.length) :
    f.batch_start_index ≤ (f.run args).2.batch_start_index ∧
    (f.run args).2.batch_start_index ≤ f.values.length ∧
    ((f.run args).1.filterMap id).flatten =
      (f.values.drop f.batch_start_index).take
        ((f.run args).2.batch_start_index - f.batch_start_index) ∧
    (f.batch_start_index = 0 →
      ((f.run args).1.filterMap id).flatten =
        f.values.take (f.run args).2.batch_start_index) := by
  obtain ⟨h1, h2, _, h4⟩ := run_spec args f hinv
  refine ⟨h1, h2, h4, fun h0 => ?_⟩
  rw [h4, h0]
  simp

/-- C8 witness: candidates `[1, 2, 3, 4, 5]`, batch size 2, two calls with
`successes = 0`: the batches `[1, 2]` and `[3, 4]` concatenate to the
prefix `[1, 2, 3, 4]` and the cursor moves `0 ≤ 4 ≤ 5`. -/
theorem batch_value_factory_cursor_slice_witness :
    (((BatchValueFactory.mk [1, 2, 3, 4, 5] 3 2 0).run [0, 0]).1.filterMap
        id).flatten =
      [1, 2, 3, 4, 5].take
        ((BatchValueFactory.mk [1, 2, 3, 4, 5] 3 2 0).run [0, 0]).2.batch_start_index ∧
    ((BatchValueFactory.mk [1, 2, 3, 4, 5] 3 2 0).run
        [0, 0]).2.batch_start_index ≤ 5 := by
  have h := batch_value_factory_cursor_slice
    (BatchValueFactory.mk [1, 2, 3, 4, 5] 3 2 0) [0, 0] (by decide)
  exact ⟨h.2.2.2 rfl, h.2.1⟩

/-! ### Claims about `Future`, the collector step and the snapshots -/

theorem applyWrites_cons (s : Option (FutureResult V E)) (w : FutureWrite V E)
    (ws : List (FutureWrite V E)) :
    Future.applyWrites s (w :: ws) = Future.applyWrites (fset s w.result) ws := by
  cases w with
  | set v => rfl
  | set_exception e => rfl

theorem applyWrites_none_cons (w : FutureWrite V E) (ws : List (FutureWrite V E)) :
    Future.applyWrites (none : Option (FutureResult V E)) (w :: ws) = some w.result := by
  rw [applyWrites_cons]
  have hs : fset (none : Option (FutureResult V E)) w.result = some w.result := rfl
  rw [hs]
  exact applyWrites_of_isSome _ ws rfl

/-- C7: the first write to a `Future` (`set` or `set_exception`) fixes the
stored value and all later writes are no-ops; `get` blocks while unset
(`none`) and otherwise returns the first-written value or re-raises the
first-captured exception; `is_set` is true exactly when at least one write
has occurred. -/
theorem future_first_write_wins (ws : List (FutureWrite V E)) (v : V) (e : E) :
    Future.is_set (none : Option (FutureResult V E)) = false ∧
    Future.get (none : Option (FutureResult V E)) = none ∧
    Future.is_set (Future.applyWrites (none : Option (FutureResult V E)) ws) =
      !ws.isEmpty ∧
    Future.applyWrites (none : Option (FutureResult V E))
      (FutureWrite.set v :: ws) = some ⟨some v, none⟩ ∧
    Future.applyWrites (none : Option (FutureResult V E))
      (FutureWrite.set_exception e :: ws) = some ⟨none, some e⟩ ∧
    Future.get (Future.applyWrites (none : Option (FutureResult V E))
      (FutureWrite.set v :: ws)) = some (Except.ok (some v)) ∧
    Future.get (Future.applyWrites (none : Option (FutureResult V E))
      (FutureWrite.set_exception e :: ws)) = some (Except.error e) := by
  refine ⟨rfl, rfl, ?_, ?_, ?_, ?_, ?_⟩
  · cases ws with
    | nil => rfl
    | cons w ws =>
      rw [applyWrites_none_cons]
      rfl
  · exact applyWrites_none_cons (FutureWrite.set v) ws
  · exact applyWrites_none_cons (FutureWrite.set_exception e) ws
  · rw [applyWrites_none_cons]
    rfl
  · rw [applyWrites_none_cons]
    rfl

theorem process_success_fields [DecidableEq V] (target : Nat)
    (s : CollectorState V R E) (v : V) (r : R) :
    (process_one_result target s (.success v r)).successes = dinsert s.successes v r ∧
    (process_one_result target s (.success v r)).failures = s.failures := by
  unfold process_one_result
  dsimp only
  split <;> exact ⟨rfl, rfl⟩

/-- C6: when the collector processes a `Success` for a value already present
in the successes dict, the stored result is overwritten but the key set —
and hence `len(_successes)`, the count compared against the target — does
not grow; that count always equals the number of distinct values that have
succeeded. -/
theorem process_success_dedup [DecidableEq V] (target : Nat)
    (s : CollectorState V R E) (v : V) (r : R)
    (hmem : v ∈ dkeys s.successes) (hnodup : (dkeys s.successes).Nodup) :
    dkeys (process_one_result target s (.success v r)).successes =
      dkeys s.successes ∧
    dlookup (process_one_result target s (.success v r)).successes v = some r ∧
    (process_one_result target s (.success v r)).successes.length =
      s.successes.length ∧
    (dkeys (process_one_result target s (.success v r)).successes).Nodup ∧
    (process_one_result target s (.success v r)).successes.length =
      (dkeys (process_one_result target s (.success v r)).successes).length := by
  have hf := (process_success_fields target s v r).1
  rw [hf]
  exact ⟨dkeys_dinsert_of_mem s.successes v r hmem,
         dlookup_dinsert_self s.successes v r,
         length_dinsert_of_mem s.successes v r hmem,
         by rw [dkeys_dinsert_of_mem s.successes v r hmem]; exact hnodup,
         (dkeys_length _).symm⟩

/-- C6 witness: with the successes dict `{7 ↦ 1}` and a new success `(7, 5)`,
the dict becomes `{7 ↦ 5}`: same keys, same size. -/
theorem process_success_dedup_witness :
    dkeys (process_one_result 3
        (CollectorState.mk [(7, 1)] ([] : List (Nat × Nat)) 0 none false)
        (.success 7 5)).successes = [7] ∧
    dlookup (process_one_result 3
        (CollectorState.mk [(7, 1)] ([] : List (Nat × Nat)) 0 none false)
        (.success 7 5)).successes 7 = some 5 ∧
    (process_one_result 3
        (CollectorState.mk [(7, 1)] ([] : List (Nat × Nat)) 0 none false)
        (.success 7 5)).successes.length = 1 := by
  have h := process_success_dedup 3
    (CollectorState.mk [(7, 1)] ([] : List (Nat × Nat)) 0 none false)
    7 5 (by decide) (by decide)
  exact ⟨h.1, h.2.1, h.2.2.1⟩

/-- C10: processing a `Success` leaves the failures dict unchanged and
processing a `Failure` leaves the successes dict unchanged; a value with an
earlier recorded failure that later succeeds is present in both dicts at
once. -/
theorem process_results_frame [DecidableEq V] (target : Nat)
    (s : CollectorState V R E) (v : V) (r : R) (e : E) :
    (process_one_result target s (.success v r)).failures = s.failures ∧
    (process_one_result target s (.failure v e)).successes = s.successes ∧
    (v ∈ dkeys s.failures →
      v ∈ dkeys (process_one_result target s (.success v r)).successes ∧
      v ∈ dkeys (process_one_result target s (.success v r)).failures) := by
  refine ⟨(process_success_fields target s v r).2, rfl, fun hmem => ⟨?_, ?_⟩⟩
  · rw [(process_success_fields target s v r).1]
    exact mem_dkeys_dinsert_self s.successes v r
  · rw [(process_success_fields target s v r).2]
    exact hmem

/-- C10 witness: value `4` failed earlier (`failures = {4 ↦ 9}`); after a
later success `(4, 2)` it is in both dicts, and each handler left the other
dict unchanged. -/
theorem process_results_frame_witness :
    (process_one_result 2 (CollectorState.mk ([] : List (Nat × Nat)) [(4, 9)] 0 none false)
        (.success 4 2)).failures = [(4, 9)] ∧
    (process_one_result 2 (CollectorState.mk ([] : List (Nat × Nat)) [(4, 9)] 0 none false)
        (.failure 4 9)).successes = [] ∧
    (4 ∈ dkeys (process_one_result 2
        (CollectorState.mk ([] : List (Nat × Nat)) [(4, 9)] 0 none false)
        (.success 4 2)).successes ∧
      4 ∈ dkeys (process_one_result 2
        (CollectorState.mk ([] : List (Nat × Nat)) [(4, 9)] 0 none false)
        (.success 4 2)).failures) := by
  have h := process_results_frame 2
    (CollectorState.mk ([] : List (Nat × Nat)) [(4, 9)] 0 none false) 4 2 9
  exact ⟨h.1, h.2.1, h.2.2 (by decide)⟩

/-- C9: `get_failures` (and identically `get_successes`) returns a freshly
allocated copy of the internal dict taken at a single point in time:
the copy's contents equal the internal dict's current contents, the copy is
a different object, mutating the copy leaves the internal dict unchanged,
and later internal updates leave the copy unchanged. -/
theorem get_failures_snapshot_frame (h : DictHeap K V) (internal_addr : Nat)
    (hvalid : internal_addr < h.cells.length) :
    (get_failures_op h internal_addr).1.read (get_failures_op h internal_addr).2 =
      h.read internal_addr ∧
    (get_failures_op h internal_addr).2 ≠ internal_addr ∧
    (get_failures_op h internal_addr).1.read internal_addr = h.read internal_addr ∧
    (∀ d, (((get_failures_op h internal_addr).1.write
        (get_failures_op h internal_addr).2 d).read internal_addr) =
      (get_failures_op h internal_addr).1.read internal_addr) ∧
    (∀ d, (((get_failures_op h internal_addr).1.write internal_addr d).read
        (get_failures_op h internal_addr).2) =
      (get_failures_op h internal_addr).1.read (get_failures_op h internal_addr).2) := by
  unfold get_failures_op DictHeap.alloc DictHeap.read DictHeap.write
  dsimp only
  refine ⟨?_, ?_, ?_, ?_, ?_⟩
  · rw [List.getD_eq_getElem?_getD, List.getElem?_concat_length]
    rfl
  · omega
  · rw [List.getD_eq_getElem?_getD, List.getD_eq_getElem?_getD,
        List.getElem?_append_left hvalid]
  · intro d
    simp only [List.getD_eq_getElem?_getD]
    rw [List.getElem?_set_ne (by omega)]
  · intro d
    simp only [List.getD_eq_getElem?_getD]
    rw [List.getElem?_set_ne (by omega)]

/-- C9 witness: a heap with the internal failures dict `{1 ↦ 2}` at address
0: the snapshot lands at fresh address 1 with equal contents, and mutations
on either side do not affect the other. -/
theorem get_failures_snapshot_frame_witness :
    (get_failures_op (DictHeap.mk [[(1, 2)]]) 0).1.read
        (get_failures_op (DictHeap.mk [[(1, 2)]]) 0).2 =
      (DictHeap.mk [[(1, 2)]] : DictHeap Nat Nat).read 0 ∧
    (get_failures_op (DictHeap.mk [[(1, 2)]] : DictHeap Nat Nat) 0).2 ≠ 0 := by
  have h := get_failures_snapshot_frame (DictHeap.mk [[(1, 2)]] : DictHeap Nat Nat) 0
    (by decide)
  exact ⟨h.1, h.2.1⟩

/-! ### Claims about the caller-facing termination outcome and producer
defects -/

/-- The result `block_until_target_successes` derives from a published
outcome, the configured timeout and the failures snapshot. -/
def outcomeResult (o : Outcome V R) (tmo : T) (fl : List (V × E)) :
    Except (PoolError V E T) (List (V × R)) :=
  match o with
  | .reached_target m => .ok m
  | .timeout_triggered => .error (.timedOut tmo fl)
  | .producer_stopped => .error (.outOfValues fl)

theorem block_eval (q : PoolView V R E T) (o : Outcome V R)
    (hq : q.producer_error = none) (hqo : q.target_value = some o) :
    block_until_target_successes q =
      some (outcomeResult o q.timeout q.failures) := by
  cases o with
  | reached_target m =>
    unfold block_until_target_successes check_for_producer_error outcomeResult
    rw [hq, hqo]
  | timeout_triggered =>
    unfold block_until_target_successes check_for_producer_error outcomeResult
    rw [hq, hqo]
  | producer_stopped =>
    unfold block_until_target_successes check_for_producer_error outcomeResult
    rw [hq, hqo]

/-- C1: once the termination signal is published (and no producer defect was
captured), `block_until_target_successes` returns the successes dict when
the reached-target outcome was published, raises `TimedOut` carrying the
configured timeout and a failures snapshot when the watchdog published
timed-out, and raises `OutOfValues` carrying a failures snapshot when the
producer-stopped outcome was published; every repeated or concurrent caller
reading the same published outcome observes the same kind of result, and in
the reached-target case the very same successes dict. -/
theorem block_until_target_successes_trichotomy (p : PoolView V R E T)
    (o : Outcome V R) (hpe : p.producer_error = none)
    (ho : p.target_value = some o) :
    ∃ res, block_until_target_successes p = some res ∧
      ((∃ m, o = Outcome.reached_target m ∧ res = Except.ok m) ∨
       (o = Outcome.timeout_triggered ∧
         res = Except.error (PoolError.timedOut p.timeout p.failures)) ∨
       (o = Outcome.producer_stopped ∧
         res = Except.error (PoolError.outOfValues p.failures))) ∧
      (∀ q : PoolView V R E T, q.producer_error = none →
        q.target_value = some o →
        ∃ res2, block_until_target_successes q = some res2 ∧
          blockKind res2 = blockKind res ∧
          ∀ m, res = Except.ok m → res2 = Except.ok m) := by
  cases o with
  | reached_target m =>
    refine ⟨Except.ok m, block_eval p _ hpe ho, Or.inl ⟨m, rfl, rfl⟩, ?_⟩
    intro q hq hqo
    refine ⟨Except.ok m, block_eval q _ hq hqo, rfl, ?_⟩
    intro m2 hm2
    rw [← hm2]
  | timeout_triggered =>
    refine ⟨Except.error (PoolError.timedOut p.timeout p.failures),
      block_eval p _ hpe ho, Or.inr (Or.inl ⟨rfl, rfl⟩), ?_⟩
    intro q hq hqo
    refine ⟨Except.error (PoolError.timedOut q.timeout q.failures),
      block_eval q _ hq hqo, rfl, ?_⟩
    intro m2 hm2
    exact absurd hm2 (by simp)
  | producer_stopped =>
    refine ⟨Except.error (PoolError.outOfValues p.failures),
      block_eval p _ hpe ho, Or.inr (Or.inr ⟨rfl, rfl⟩), ?_⟩
    intro q hq hqo
    refine ⟨Except.error (PoolError.outOfValues q.failures),
      block_eval q _ hq hqo, rfl, ?_⟩
    intro m2 hm2
    exact absurd hm2 (by simp)

/-- C1 witness: with the reached-target outcome `{1 ↦ 2}` published,
`block_until_target_successes` returns that successes dict, and with the
timed-out outcome published it raises `TimedOut` with the configured
timeout `3` and the failures snapshot. -/
theorem block_until_target_successes_trichotomy_witness :
    block_until_target_successes (PoolView.mk (3 : Nat) (none : Option Nat)
        (some (Outcome.reached_target [(1, 2)])) ([] : List (Nat × Nat))) =
      some (Except.ok [(1, 2)]) ∧
    block_until_target_successes (PoolView.mk (3 : Nat) (none : Option Nat)
        (some (Outcome.timeout_triggered (V := Nat) (R := Nat)))
        [(9, 0)]) =
      some (Except.error (PoolError.timedOut 3 [(9, 0)])) := by
  constructor
  · obtain ⟨res, hres, hcase, _⟩ := block_until_target_successes_trichotomy
      (PoolView.mk (3 : Nat) (none : Option Nat)
        (some (Outcome.reached_target [(1, 2)])) ([] : List (Nat × Nat)))
      (Outcome.reached_target [(1, 2)]) rfl rfl
    rcases hcase with ⟨m, hm, hr⟩ | ⟨h1, _⟩ | ⟨h1, _⟩
    · cases hm
      rw [hres, hr]
    · cases h1
    · cases h1
  · obtain ⟨res, hres, hcase, _⟩ := block_until_target_successes_trichotomy
      (PoolView.mk (3 : Nat) (none : Option Nat)
        (some (Outcome.timeout_triggered (V := Nat) (R := Nat)))
        [(9, 0)])
      Outcome.timeout_triggered rfl rfl
    rcases hcase with ⟨m, hm, hr⟩ | ⟨_, hr⟩ | ⟨h1, _⟩
    · cases hm
    · rw [hres, hr]
    · cases h1

theorem produce_loop_defect (factory : Nat → FactoryResp V E) (lens : Nat → Nat)
    (cds : Nat → Bool) (fuel : Nat) :
    ∀ (i : Nat) (s s1 : ProducerState V E) (e : E),
      s.producer_error = none →
      produce_values_loop factory lens cds fuel i s =
        some (ProducerExit.defect e, s1) →
      s1.producer_error = some e ∧ s1.cancel_event = true := by
  induction fuel with
  | zero => intro i s s1 e h0 h; simp [produce_values_loop] at h
  | succ fuel ih =>
    intro i s s1 e h0 h
    unfold produce_values_loop at h
    cases hf : factory (lens i) with
    | raiseCancelled =>
      rw [hf] at h
      simp at h
    | raise e2 =>
      rw [hf] at h
      simp only [Option.some.injEq, Prod.mk.injEq,
        ProducerExit.defect.injEq] at h
      obtain ⟨he, hs⟩ := h
      subst he
      subst hs
      constructor
      · simp [fset, h0]
      · rfl
    | batch b =>
      rw [hf] at h
      match b with
      | none => simp at h
      | some [] => simp at h
      | some (x :: xs) =>
        dsimp only at h
        split at h
        · simp at h
        · exact ih (i + 1)
            { s with
                started_tasks := s.started_tasks + (x :: xs).length
                submitted := s.submitted ++ x :: xs }
            s1 e h0 h

/-- C2: if the producer loop's value-factory call raises an unexpected
exception (the `except BaseException` branch, not `Cancelled`), the run
captures it in the `_producer_error` future, sets the cancellation event,
still enqueues the `PRODUCER_STOPPED` sentinel, and re-raises that
exception to any caller of `block_until_target_successes` or `join` —
whatever termination outcome `_target_value` holds, the caller sees the
defect, not an `OutOfValues` or `TimedOut` conversion of it. -/
theorem producer_defect_reraised (factory : Nat → FactoryResp V E)
    (lens : Nat → Nat) (cds : Nat → Bool) (fuel : Nat)
    (s s1 : ProducerState V E) (e : E)
    (h0 : s.producer_error = none)
    (h : produce_values factory lens cds fuel s =
      some (ProducerExit.defect e, s1)) :
    s1.producer_error = some e ∧
    s1.cancel_event = true ∧
    s1.queued_producer_stopped = true ∧
    (∀ (tmo : T) (tv : Option (Outcome V R)) (fl : List (V × E)),
      WorkerPool.join (PoolView.mk tmo s1.producer_error tv fl) =
        Except.error e ∧
      block_until_target_successes (PoolView.mk tmo s1.producer_error tv fl) =
        some (Except.error (PoolError.producerDefect e))) := by
  unfold produce_values at h
  cases hl : produce_values_loop factory lens cds fuel 0 s with
  | none => rw [hl] at h; simp at h
  | some rs =>
    obtain ⟨r, s2⟩ := rs
    rw [hl] at h
    simp only [Option.some.injEq, Prod.mk.injEq] at h
    obtain ⟨hr, hs⟩ := h
    cases hr
    obtain ⟨hpe, hce⟩ := produce_loop_defect factory lens cds fuel 0 s s2 e h0 hl
    have h1 : s1.producer_error = some e := by rw [← hs]; exact hpe
    have h2 : s1.cancel_event = true := by rw [← hs]; exact hce
    have h3 : s1.queued_producer_stopped = true := by rw [← hs]
    refine ⟨h1, h2, h3, ?_⟩
    intro tmo tv fl
    constructor
    · unfold WorkerPool.join check_for_producer_error
      dsimp only
      rw [h1]
    · unfold block_until_target_successes check_for_producer_error
      dsimp only
      rw [h1]

/-- C2 witness: a factory that raises `7` at the first iteration: the final
producer state captures the error, is cancelled, queued the sentinel, and
`join` / `block_until_target_successes` re-raise `7` even though the
producer-stopped outcome is also published. -/
theorem producer_defect_reraised_witness :
    (ProducerState.mk 0 true (some 7) ([] : List Nat) true).producer_error =
      some 7 ∧
    WorkerPool.join (PoolView.mk (5 : Nat) (some 7)
        (some (Outcome.producer_stopped (V := Nat) (R := Nat)))
        ([] : List (Nat × Nat))) = Except.error 7 ∧
    block_until_target_successes (PoolView.mk (5 : Nat) (some 7)
        (some (Outcome.producer_stopped (V := Nat) (R := Nat)))
        ([] : List (Nat × Nat))) =
      some (Except.error (PoolError.producerDefect 7)) := by
  have h := producer_defect_reraised (V := Nat) (R := Nat) (T := Nat)
    (fun _ => FactoryResp.raise 7) (fun _ => 0) (fun _ => false) 1
    (ProducerState.mk 0 false none ([] : List Nat) false)
    (ProducerState.mk 0 true (some 7) ([] : List Nat) true) 7 rfl rfl
  exact ⟨h.1,
    (h.2.2.2 5 (some Outcome.producer_stopped) ([] : List (Nat × Nat))).1,
    (h.2.2.2 5 (some Outcome.producer_stopped) ([] : List (Nat × Nat))).2⟩

end Concurrency
